import Mathlib

/-!
Shallow embedding of the IGMP module of FreeRTOS+TCP (`src/FreeRTOS_IGMP.c`,
`src/include/FreeRTOS_IGMP.h`) and proofs about the claims of the natural-language
specification.

Modelling conventions:
* Machine integers (`uint8_t`, `uint32_t`, `BaseType_t`) become `Nat`; stores into a
  `uint8_t` field are modelled with an explicit `% 256` where the stored value is not
  syntactically bounded; theorems carry the field-width bounds (`< 256`) as hypotheses
  where they matter.
* The intrusive FreeRTOS `List_t` of `IGMPReportDesc_t` entries becomes a Lean
  `List IGMPReportDesc` in traversal order (`listGET_NEXT` from the end marker).
* Heap identities (pointer values) of descriptors are modelled with an `id : Nat`
  field; `vPortFree` calls are modelled by logging the freed `id`.
* The external random source `xApplicationGetRandomNumber` becomes an
  `Option Nat` outcome per draw (`none` = the source failed, `some u` = it produced
  the 32-bit value `u`); packet processing draws a sequence of outcomes modelled as a
  function from the draw index.
* External collaborators (`xEMAC_AddMulticastAddress`, `xEMAC_RemoveMulticastAddress`,
  `vSendIGMP`'s frame transmission) are modelled by logging the calls with the
  arguments that the source passes.
-/

/-- IGMP membership query message type (`ipIGMP_MEMBERSHIP_QUERY`, 0x11). -/
def ipIGMP_MEMBERSHIP_QUERY : Nat := 0x11

/-- IGMP v1 membership report message type (`ipIGMP_MEMBERSHIP_REPORT_V1`, 0x12). -/
def ipIGMP_MEMBERSHIP_REPORT_V1 : Nat := 0x12

/-- IGMP v2 membership report message type (`ipIGMP_MEMBERSHIP_REPORT_V2`, 0x16). -/
def ipIGMP_MEMBERSHIP_REPORT_V2 : Nat := 0x16

/-- IGMP v3 membership report message type (`ipIGMP_MEMBERSHIP_REPORT_V3`, 0x22). -/
def ipIGMP_MEMBERSHIP_REPORT_V3 : Nat := 0x22

/-- One entry of the report schedule list (`IGMPReportDesc_t` from
`FreeRTOS_IGMP.h`).  `groupAddr` models `mreq.imr_multiaddr.sin_addr` (the
multicast group address, the deduplication key), `numSockets` models
`xNumSockets`, `countDown` models `ucCountDown` (a `uint8_t`), and `id` models
the heap address of the allocation (used only for ownership statements). -/
structure IGMPReportDesc where
  groupAddr : Nat
  numSockets : Nat
  countDown : Nat
  id : Nat
deriving DecidableEq

/-- Embeds the reduction loop `while( uiRandom > ucMaxRespTime ) uiRandom -= ucMaxRespTime;`
from the general-query branch of `eProcessIGMPPacket`.  The `0 < w` conjunct makes the
recursion well founded; every call site in the source has `ucMaxRespTime >= 1` (it is
clamped to at least 2 and then decremented once), and under `0 < w` the branch condition
coincides with the C loop guard. -/
def reduceIntoWindow (w r : Nat) : Nat :=
  if _h : 0 < w ∧ w < r then reduceIntoWindow w (r - w) else r
termination_by r
decreasing_by omega

/-- Embeds the `RandMask` computation of `eProcessIGMPPacket` for a given effective
window (`ucMaxRespTime` after the clamp-to-2 and the decrement):
`RandMask = window; RandMask--; RandMask |= RandMask >> 1; RandMask |= RandMask >> 2;
if (0 == RandMask) RandMask = 1;`.  Note the source performs only the shift-by-1 and
shift-by-2 smears (its own comment describes shifts by 4, 8 and 16 as well). -/
def randMaskOf (window : Nat) : Nat :=
  let n := window - 1
  let n := n ||| (n >>> 1)
  let n := n ||| (n >>> 2)
  if n = 0 then 1 else n

/-- Embeds the per-entry delay computation of the general-query branch of
`eProcessIGMPPacket`.  `mrt` is the raw `ucMaxResponseTime` header field; the window is
`max(2, mrt) - 1`.  `rnd` is the outcome of `xApplicationGetRandomNumber` for this entry
(`none` = failure) and `ctr` is the current value of `uiNonRandomCounter`.  Returns the
value stored into `ucCountDown` (a `uint8_t` store, hence `% 256`) together with the
updated `uiNonRandomCounter`. -/
def igmpChooseDelay (mrt : Nat) (rnd : Option Nat) (ctr : Nat) : Nat × Nat :=
  let window := max 2 mrt - 1
  match rnd with
  | none =>
      let next := ctr + 1
      (ctr % 256, if window < next then 1 else next)
  | some u =>
      let r := u &&& randMaskOf window
      let r := if r = 0 then 1 else r
      (reduceIntoWindow window r % 256, ctr)

/-- Embeds the schedule-list traversal of the general-query branch of
`eProcessIGMPPacket`: every entry with `ucCountDown <= 0 || ucCountDown >= ucMaxResponseTime`
(the raw header field) gets a fresh delay; other entries are untouched.  `rnds k` is the
outcome of the `k`-th call of `xApplicationGetRandomNumber` during this packet, `k` counts
the draws made so far and `c` threads `uiNonRandomCounter`.  Returns the updated list
together with the final draw index and counter. -/
def igmpGeneralQueryReschedule (mrt : Nat) (rnds : Nat → Option Nat) :
    List IGMPReportDesc → Nat → Nat → List IGMPReportDesc × Nat × Nat
  | [], k, c => ([], k, c)
  | e :: rest, k, c =>
      if e.countDown ≤ 0 ∨ mrt ≤ e.countDown then
        let res := igmpChooseDelay mrt (rnds k) c
        let tail := igmpGeneralQueryReschedule mrt rnds rest (k + 1) res.2
        ({ e with countDown := res.1 } :: tail.1, tail.2)
      else
        let tail := igmpGeneralQueryReschedule mrt rnds rest k c
        (e :: tail.1, tail.2)

/-- Ethernet header of an inbound frame (`EthernetHeader_t`).  The IGMP receive path
never reads these fields; they are carried so that independence from them is
expressible. -/
structure EthernetHeader where
  destinationAddress : Nat
  sourceAddress : Nat
  frameType : Nat
deriving DecidableEq

/-- IPv4 header of an inbound frame (`IPHeader_t`), abridged to representative fields;
the IGMP receive path never reads any of them. -/
structure IPHeader where
  versionHeaderLength : Nat
  protocol : Nat
  sourceIPAddress : Nat
  destinationIPAddress : Nat
deriving DecidableEq

/-- IGMP header (`IGMPHeader_t` from `FreeRTOS_IGMP.c`): message type, maximum response
time, checksum and group address, all network-order integer values. -/
structure IGMPHeader where
  typeOfMessage : Nat
  maxResponseTime : Nat
  checksum : Nat
  groupAddress : Nat
deriving DecidableEq

/-- An IGMP packet view (`IGMPPacket_t`): Ethernet + IPv4 + IGMP headers. -/
structure IGMPPacket where
  ethernetHeader : EthernetHeader
  ipHeader : IPHeader
  igmpHeader : IGMPHeader
deriving DecidableEq

/-- Size in bytes of the packed `IGMPPacket_t`: 14 (Ethernet) + 20 (IPv4) + 8 (IGMP). -/
def sizeofIGMPPacket : Nat := 42

/-- A network buffer descriptor as seen by `eProcessIGMPPacket`: the data length and the
packet view behind `pucEthernetBuffer`.  Reading the packet fields is only legal once the
length check has passed; the embedding makes the short-frame path return before touching
`packet`. -/
structure NetworkBuffer where
  dataLength : Nat
  packet : IGMPPacket
deriving DecidableEq

/-- Result codes of frame processing (`eFrameProcessingResult_t`).  Modelled from the
spec: the enumeration is declared in `FreeRTOS_IP.h`, which is not among these sources;
the IGMP module only ever produces `eReleaseBuffer`. -/
inductive FrameProcessingResult where
  | eReleaseBuffer
  | eProcessBuffer
  | eReturnEthernetFrame
  | eFrameConsumed
deriving DecidableEq

/-- The state read and written by `eProcessIGMPPacket`: the schedule list
`xIGMP_ScheduleList` and the two statistics counters `uiNumIGMP_Queries` and
`uiNumIGMP_Reports`. -/
structure IGMPProcState where
  scheduleList : List IGMPReportDesc
  numQueries : Nat
  numReports : Nat
deriving DecidableEq

/-- Embeds `eProcessIGMPPacket`.  Frames shorter than `sizeof(IGMPPacket_t)` are released
unread; membership queries bump `uiNumIGMP_Queries` and, for general queries (group
address 0), reschedule the report list; v1/v2/v3 reports bump `uiNumIGMP_Reports`;
everything else falls through.  The function result is the `eFrameProcessingResult_t`
return value paired with the updated state. -/
def eProcessIGMPPacket (buf : NetworkBuffer) (rnds : Nat → Option Nat)
    (st : IGMPProcState) : FrameProcessingResult × IGMPProcState :=
  if buf.dataLength < sizeofIGMPPacket then
    (FrameProcessingResult.eReleaseBuffer, st)
  else
    let igmp := buf.packet.igmpHeader
    if igmp.typeOfMessage = ipIGMP_MEMBERSHIP_QUERY then
      let st := { st with numQueries := st.numQueries + 1 }
      if igmp.groupAddress = 0 then
        let lst := (igmpGeneralQueryReschedule igmp.maxResponseTime rnds st.scheduleList 0 1).1
        (FrameProcessingResult.eReleaseBuffer, { st with scheduleList := lst })
      else
        (FrameProcessingResult.eReleaseBuffer, st)
    else if igmp.typeOfMessage = ipIGMP_MEMBERSHIP_REPORT_V1 ∨
            igmp.typeOfMessage = ipIGMP_MEMBERSHIP_REPORT_V2 ∨
            igmp.typeOfMessage = ipIGMP_MEMBERSHIP_REPORT_V3 then
      (FrameProcessingResult.eReleaseBuffer, { st with numReports := st.numReports + 1 })
    else
      (FrameProcessingResult.eReleaseBuffer, st)

/-- Arguments of one `vSendIGMP` call made by `vHandleIGMP_Event`: message type,
response time, multicast group, and the destination address the frame is sent to. -/
structure SentFrame where
  msgType : Nat
  respTime : Nat
  group : Nat
  dest : Nat
deriving DecidableEq

/-- Embeds `vHandleIGMP_Event`: one sweep over the schedule list; every entry with
`ucCountDown > 0` is decremented and, exactly when the decrement reaches 0,
`vSendIGMP( 0, ipIGMP_MEMBERSHIP_REPORT_V2, 0, group, group )` is invoked for it.
Returns the updated list and the `vSendIGMP` calls in traversal order. -/
def vHandleIGMP_Event : List IGMPReportDesc → List IGMPReportDesc × List SentFrame
  | [] => ([], [])
  | e :: rest =>
      if 0 < e.countDown then
        let e2 := { e with countDown := e.countDown - 1 }
        let tail := vHandleIGMP_Event rest
        if e2.countDown = 0 then
          (e2 :: tail.1,
            ⟨ipIGMP_MEMBERSHIP_REPORT_V2, 0, e.groupAddr, e.groupAddr⟩ :: tail.2)
        else
          (e2 :: tail.1, tail.2)
      else
        let tail := vHandleIGMP_Event rest
        (e :: tail.1, tail.2)

/-- Embeds `vRemoveIGMPReportFromList`: find the first entry whose group address equals
`g`; decrement `xNumSockets` if positive; if it is then 0, unlink and free the entry;
stop at the first match (`break`). -/
def vRemoveIGMPReportFromList (lst : List IGMPReportDesc) (g : Nat) : List IGMPReportDesc :=
  match lst with
  | [] => []
  | e :: rest =>
      if e.groupAddr = g then
        let e2 := if 0 < e.numSockets then { e with numSockets := e.numSockets - 1 } else e
        if e2.numSockets = 0 then rest else e2 :: rest
      else
        e :: vRemoveIGMPReportFromList rest g

/-- The `uiRandom` seed of `xAddIGMPReportToList`: the draw of
`xApplicationGetRandomNumber` on success, or the candidate's own heap address
(`( uint32_t ) pNewEntry`) when the random source fails. -/
def xAddSeed (cand : IGMPReportDesc) (rnd : Option Nat) : Nat :=
  match rnd with
  | some u => u
  | none => cand.id

/-- Embeds `xAddIGMPReportToList`: scan for an entry with the candidate's group address;
if found, bump its `xNumSockets` and return `pdFALSE` (`false`, the candidate was not
consumed); otherwise set the candidate's `xNumSockets` to 1, give it an unsolicited
countdown `2 + (uiRandom & 0x07)` (see `xAddSeed` for `uiRandom`), append it at the end
(`vListInsertEnd`) and return `pdTRUE` (`true`). -/
def xAddIGMPReportToList (lst : List IGMPReportDesc) (cand : IGMPReportDesc)
    (rnd : Option Nat) : List IGMPReportDesc × Bool :=
  match lst with
  | [] =>
      ([{ cand with numSockets := 1, countDown := 2 + (xAddSeed cand rnd &&& 0x07) }], true)
  | e :: rest =>
      if e.groupAddr = cand.groupAddr then
        ({ e with numSockets := e.numSockets + 1 } :: rest, false)
      else
        let tail := xAddIGMPReportToList rest cand rnd
        (e :: tail.1, tail.2)

/-- One registry operation on the schedule list: a join inserts (or bumps) a report
descriptor through `xAddIGMPReportToList`; a leave decrements (or removes) through
`vRemoveIGMPReportFromList`. -/
inductive RegistryOp where
  | join (cand : IGMPReportDesc) (rnd : Option Nat)
  | leave (g : Nat)

/-- Applies a sequence of registry operations to a schedule list, front to back. -/
def applyRegistryOps : List RegistryOp → List IGMPReportDesc → List IGMPReportDesc
  | [], lst => lst
  | RegistryOp.join c r :: ops, lst => applyRegistryOps ops (xAddIGMPReportToList lst c r).1
  | RegistryOp.leave g :: ops, lst => applyRegistryOps ops (vRemoveIGMPReportFromList lst g)

/-- One call into the link-layer multicast filter, logged with the group address whose
mapped MAC (`vSetMultiCastIPv4MacAddress`) is passed to `xEMAC_AddMulticastAddress` or
`xEMAC_RemoveMulticastAddress`. -/
inductive FilterOp where
  | addMac (group : Nat)
  | removeMac (group : Nat)
deriving DecidableEq

/-- A per-socket multicast group descriptor (`MCastGroupDesc_t` from `FreeRTOS_IGMP.h`):
the group address, the owning socket, the optional pre-allocated report descriptor
candidate (`pxIGMPReportDesc`), and the heap identity of this descriptor. -/
structure MCastGroupDesc where
  groupAddr : Nat
  sock : Nat
  report : Option IGMPReportDesc
  id : Nat
deriving DecidableEq

/-- Modelled from the spec: the socket-option action codes `eSocketOptAddMembership` and
`eSocketOptDropMembership` are declared in a header that is not among these sources; only
their values being distinct matters to the IGMP module, so nominal values are used. -/
def eSocketOptAddMembership : Nat := 12

/-- Modelled from the spec: drop-membership action code; see `eSocketOptAddMembership`. -/
def eSocketOptDropMembership : Nat := 13

/-- Result of one `vModifyMulticastMembership` call: the socket's group list, the report
registry, the link-layer filter calls made during the call (in order), and the heap
identities freed by `vPortFree` during the call (in order). -/
structure ModifyResult where
  sockList : List MCastGroupDesc
  registry : List IGMPReportDesc
  filterCalls : List FilterOp
  freed : List Nat
deriving DecidableEq

/-- First entry of a socket's group list with the given group address, if any
(the scan loop of `vModifyMulticastMembership`). -/
def findMCG (lst : List MCastGroupDesc) (g : Nat) : Option MCastGroupDesc :=
  match lst with
  | [] => none
  | e :: rest => if e.groupAddr = g then some e else findMCG rest g

/-- Removes the first entry with the given group address (`uxListRemove` on the matched
item inside the scan loop of `vModifyMulticastMembership`). -/
def removeMCG (lst : List MCastGroupDesc) (g : Nat) : List MCastGroupDesc :=
  match lst with
  | [] => []
  | e :: rest => if e.groupAddr = g then rest else e :: removeMCG rest g

/-- Embeds `vModifyMulticastMembership`.  An action other than add- or drop-membership
returns immediately.  Otherwise the socket's group list is scanned for the group (the
scan and the conditional unlink of the match are fused in the C loop; the net effect is
modelled here).  Adding with no duplicate stores the request descriptor, informs the
driver (`addMac`) and offers the report candidate to `xAddIGMPReportToList`, freeing the
candidate if it was not consumed (and clearing the stored reference).  Adding a
duplicate frees the candidate (if any) and the request.  Dropping a found group removes
the stored descriptor, informs the driver (`removeMac`) and decrements the registry
through `vRemoveIGMPReportFromList`; the request is freed unless it is the very object
stored in the list (the `vSocketClose` case), and the matched item is freed last.
Dropping an absent group only frees the request. -/
def vModifyMulticastMembership (sockList : List MCastGroupDesc)
    (registry : List IGMPReportDesc) (desc : MCastGroupDesc) (bAction : Nat)
    (rnd : Option Nat) : ModifyResult :=
  if bAction ≠ eSocketOptAddMembership ∧ bAction ≠ eSocketOptDropMembership then
    ⟨sockList, registry, [], []⟩
  else
    match findMCG sockList desc.groupAddr with
    | none =>
        if bAction = eSocketOptAddMembership then
          match desc.report with
          | some r =>
              let res := xAddIGMPReportToList registry r rnd
              if res.2 then
                ⟨sockList ++ [desc], res.1, [FilterOp.addMac desc.groupAddr], []⟩
              else
                ⟨sockList ++ [{ desc with report := none }], res.1,
                  [FilterOp.addMac desc.groupAddr], [r.id]⟩
          | none =>
              ⟨sockList ++ [desc], registry, [FilterOp.addMac desc.groupAddr], []⟩
        else
          ⟨sockList, registry, [], [desc.id]⟩
    | some mcg =>
        if bAction = eSocketOptAddMembership then
          ⟨sockList, registry, [],
            (match desc.report with | some r => [r.id] | none => []) ++ [desc.id]⟩
        else
          let reg2 := vRemoveIGMPReportFromList registry mcg.groupAddr
          let freedInput := if mcg.id = desc.id then [] else [desc.id]
          ⟨removeMCG sockList desc.groupAddr, reg2,
            [FilterOp.removeMac desc.groupAddr], freedInput ++ [mcg.id]⟩

/-- Report-descriptor candidate allocated by the socket layer for the `i`-th join of the
N-sockets-one-group scenario; heap identity `100 + i`. -/
def c2Candidate (g i : Nat) : IGMPReportDesc := ⟨g, 0, 0, 100 + i⟩

/-- Join request descriptor of socket `i` for group `g`; heap identity `200 + i`. -/
def c2JoinReq (g i : Nat) : MCastGroupDesc := ⟨g, i, some (c2Candidate g i), 200 + i⟩

/-- Result of socket `i` joining group `g` (its own group list is empty before the
first join; the random source succeeds with value 0). -/
def c2JoinResult (g i : Nat) (reg : List IGMPReportDesc) : ModifyResult :=
  vModifyMulticastMembership [] reg (c2JoinReq g i) eSocketOptAddMembership (some 0)

/-- Registry after sockets `0 .. n-1` have each joined group `g`, in order. -/
def c2RegAfterJoins (g : Nat) : Nat → List IGMPReportDesc
  | 0 => []
  | i + 1 => (c2JoinResult g i (c2RegAfterJoins g i)).registry

/-- Group list of socket `i` right after its join in the scenario. -/
def c2SockList (g i : Nat) : List MCastGroupDesc :=
  (c2JoinResult g i (c2RegAfterJoins g i)).sockList

/-- Leave request descriptor of socket `i` for group `g`; heap identity `300 + i`. -/
def c2LeaveReq (g i : Nat) : MCastGroupDesc := ⟨g, i, none, 300 + i⟩

/-- Result of socket `i` leaving group `g` when the registry is `reg`. -/
def c2LeaveResult (g i : Nat) (reg : List IGMPReportDesc) : ModifyResult :=
  vModifyMulticastMembership (c2SockList g i) reg (c2LeaveReq g i)
    eSocketOptDropMembership none

/-- Registry after, following `N` joins, sockets `0 .. j-1` have left group `g`. -/
def c2RegAfterLeaves (g N : Nat) : Nat → List IGMPReportDesc
  | 0 => c2RegAfterJoins g N
  | j + 1 => (c2LeaveResult g j (c2RegAfterLeaves g N j)).registry

/-- The smallest number of the form `2 ^ k - 1` that is greater than or equal to `w`.
Modelled from the spec: this is the spec's characterization of the random mask
("the smallest power-of-two-minus-one ≥ window"), stated for comparison with the
source-derived `randMaskOf`.  The recursion fills one low bit per halving, so the result
is `2 ^ (bit length of w) - 1`, the least `2 ^ k - 1` bound of `w`. -/
def smallestPow2m1GE (w : Nat) : Nat :=
  if w = 0 then 0 else 2 * smallestPow2m1GE (w / 2) + 1
termination_by w
decreasing_by omega

/-! Helper lemmas about the repeated-subtraction reduction loop. -/

/-- Entering the loop with a value already inside the window leaves it unchanged. -/
theorem reduceIntoWindow_of_le (w r : Nat) (h : r ≤ w) : reduceIntoWindow w r = r := by
  rw [reduceIntoWindow]
  simp only [dif_neg (by omega : ¬(0 < w ∧ w < r))]

/-- Closed form of the reduction loop for a positive window. -/
theorem reduceIntoWindow_closed (w : Nat) (hw : 0 < w) :
    ∀ r, reduceIntoWindow w r = if r ≤ w then r else (r - 1) % w + 1 := by
  intro r
  induction r using Nat.strong_induction_on with
  | _ r ih =>
    rw [reduceIntoWindow]
    by_cases hr : w < r
    · rw [dif_pos ⟨hw, hr⟩, ih (r - w) (by omega)]
      by_cases h2 : r - w ≤ w
      · have h3 : ¬ r ≤ w := by omega
        have h4 : r - 1 = (r - 1 - w) + w := by omega
        rw [if_pos h2, if_neg h3, h4, Nat.add_mod_right, Nat.mod_eq_of_lt (by omega)]
        omega
      · have h3 : ¬ r ≤ w := by omega
        have h4 : ¬ r - w ≤ w := by omega
        have h5 : r - 1 = (r - w - 1) + w := by omega
        rw [if_neg h4, if_neg h3, h5, Nat.add_mod_right]
    · rw [dif_neg (by omega : ¬(0 < w ∧ w < r)), if_pos (by omega : r ≤ w)]

/-- The reduction loop never leaves the window from above. -/
theorem reduceIntoWindow_le (w r : Nat) (hw : 0 < w) : reduceIntoWindow w r ≤ w := by
  rw [reduceIntoWindow_closed w hw r]
  split
  · omega
  · have := Nat.mod_lt (r - 1) hw
    omega

/-- The reduction loop keeps a positive value positive. -/
theorem reduceIntoWindow_pos (w r : Nat) (hw : 0 < w) (hr : 0 < r) :
    0 < reduceIntoWindow w r := by
  rw [reduceIntoWindow_closed w hw r]
  split <;> omega

/-- Core bound for the per-entry delay computation: under the `uint8_t` field bound on
the raw max-response-time and a fallback counter inside the window, the stored countdown
lies in `[1, max(2, mrt) - 1]`. -/
theorem igmpChooseDelay_bounds (mrt : Nat) (rnd : Option Nat) (ctr : Nat)
    (hm : mrt ≤ 255) (hc1 : 1 ≤ ctr) (hc2 : ctr ≤ max 2 mrt - 1) :
    1 ≤ (igmpChooseDelay mrt rnd ctr).1 ∧
    (igmpChooseDelay mrt rnd ctr).1 ≤ max 2 mrt - 1 := by
  have hw : 0 < max 2 mrt - 1 := by omega
  have hw2 : max 2 mrt - 1 ≤ 254 := by omega
  cases rnd with
  | none =>
      simp only [igmpChooseDelay]
      rw [Nat.mod_eq_of_lt (by omega)]
      exact ⟨hc1, hc2⟩
  | some u =>
      simp only [igmpChooseDelay]
      set r0 := u &&& randMaskOf (max 2 mrt - 1) with hr0
      set r1 := if r0 = 0 then 1 else r0 with hr1
      have hpos : 0 < r1 := by
        rw [hr1]; split <;> omega
      have hle := reduceIntoWindow_le (max 2 mrt - 1) r1 hw
      have hge := reduceIntoWindow_pos (max 2 mrt - 1) r1 hw hpos
      rw [Nat.mod_eq_of_lt (by omega)]
      exact ⟨hge, hle⟩

/-- C4: bounded randomness.  For every raw max-response-time value (a `uint8_t`, hence
at most 255), every random-source outcome (success with any value, or failure using the
deterministic fallback counter, which the packet handler keeps in `[1, window]`), the
delay stored for a rescheduled entry lies in `[1, mrt - 1]` and is never 0 when
`mrt ≥ 2`; for `mrt < 2` the computation behaves as if `mrt = 2` and the delay is
exactly 1. -/
theorem c4_bounded_randomness (mrt : Nat) (rnd : Option Nat) (ctr : Nat)
    (hm : mrt ≤ 255) (hc1 : 1 ≤ ctr) (hc2 : ctr ≤ max 2 mrt - 1) :
    (2 ≤ mrt → 1 ≤ (igmpChooseDelay mrt rnd ctr).1 ∧
      (igmpChooseDelay mrt rnd ctr).1 ≤ mrt - 1) ∧
    (igmpChooseDelay mrt rnd ctr).1 ≠ 0 ∧
    (mrt < 2 → (igmpChooseDelay mrt rnd ctr).1 = 1) := by
  have h := igmpChooseDelay_bounds mrt rnd ctr hm hc1 hc2
  refine ⟨fun h2 => ?_, by omega, fun h2 => ?_⟩
  · have hmax : max 2 mrt = mrt := max_eq_right h2
    omega
  · have hmax : max 2 mrt = 2 := max_eq_left (by omega)
    omega

/-- Witness for C4 at the concrete input `mrt = 10`, a successful draw of 12345, and
fallback counter 1. -/
theorem c4_bounded_randomness_witness :
    (10 : Nat) ≤ 255 ∧ (1 : Nat) ≤ 1 ∧ (1 : Nat) ≤ max 2 10 - 1 ∧
    ((2 ≤ 10 → 1 ≤ (igmpChooseDelay 10 (some 12345) 1).1 ∧
        (igmpChooseDelay 10 (some 12345) 1).1 ≤ 10 - 1) ∧
      (igmpChooseDelay 10 (some 12345) 1).1 ≠ 0 ∧
      (10 < 2 → (igmpChooseDelay 10 (some 12345) 1).1 = 1)) :=
  ⟨by decide, by decide, by decide,
    c4_bounded_randomness 10 (some 12345) 1 (by decide) (by decide) (by decide)⟩

/-! Evaluation lemmas for the spec-side mask characterization. -/

/-- Value of the spec-side bound at 0. -/
theorem smallestPow2m1GE_zero : smallestPow2m1GE 0 = 0 := by
  rw [smallestPow2m1GE]
  norm_num

/-- One unfolding step of the spec-side bound at a positive argument. -/
theorem smallestPow2m1GE_step (w : Nat) (h : w ≠ 0) :
    smallestPow2m1GE w = 2 * smallestPow2m1GE (w / 2) + 1 := by
  rw [smallestPow2m1GE]
  simp [h]

/-- Value of the spec-side bound at 1. -/
theorem smallestPow2m1GE_one : smallestPow2m1GE 1 = 1 := by
  rw [smallestPow2m1GE_step 1 (by norm_num)]
  norm_num [smallestPow2m1GE_zero]

/-- Value of the spec-side bound at 2. -/
theorem smallestPow2m1GE_two : smallestPow2m1GE 2 = 3 := by
  rw [smallestPow2m1GE_step 2 (by norm_num)]
  norm_num [smallestPow2m1GE_one]

/-- Value of the spec-side bound at 3. -/
theorem smallestPow2m1GE_three : smallestPow2m1GE 3 = 3 := by
  rw [smallestPow2m1GE_step 3 (by norm_num)]
  norm_num [smallestPow2m1GE_one]

/-- Value of the spec-side bound at 4. -/
theorem smallestPow2m1GE_four : smallestPow2m1GE 4 = 7 := by
  rw [smallestPow2m1GE_step 4 (by norm_num)]
  norm_num [smallestPow2m1GE_two]

/-- Value of the spec-side bound at 5. -/
theorem smallestPow2m1GE_five : smallestPow2m1GE 5 = 7 := by
  rw [smallestPow2m1GE_step 5 (by norm_num)]
  norm_num [smallestPow2m1GE_two]

/-- Value of the spec-side bound at 6. -/
theorem smallestPow2m1GE_six : smallestPow2m1GE 6 = 7 := by
  rw [smallestPow2m1GE_step 6 (by norm_num)]
  norm_num [smallestPow2m1GE_three]

/-- Value of the spec-side bound at 7. -/
theorem smallestPow2m1GE_seven : smallestPow2m1GE 7 = 7 := by
  rw [smallestPow2m1GE_step 7 (by norm_num)]
  norm_num [smallestPow2m1GE_three]

/-- Value of the spec-side bound at 8. -/
theorem smallestPow2m1GE_eight : smallestPow2m1GE 8 = 15 := by
  rw [smallestPow2m1GE_step 8 (by norm_num)]
  norm_num [smallestPow2m1GE_four]

/-- Value of the spec-side bound at 9. -/
theorem smallestPow2m1GE_nine : smallestPow2m1GE 9 = 15 := by
  rw [smallestPow2m1GE_step 9 (by norm_num)]
  norm_num [smallestPow2m1GE_four]

/-- Value of the spec-side bound at 10. -/
theorem smallestPow2m1GE_ten : smallestPow2m1GE 10 = 15 := by
  rw [smallestPow2m1GE_step 10 (by norm_num)]
  norm_num [smallestPow2m1GE_five]

/-- Value of the spec-side bound at 11. -/
theorem smallestPow2m1GE_eleven : smallestPow2m1GE 11 = 15 := by
  rw [smallestPow2m1GE_step 11 (by norm_num)]
  norm_num [smallestPow2m1GE_five]

/-- Value of the spec-side bound at 12. -/
theorem smallestPow2m1GE_twelve : smallestPow2m1GE 12 = 15 := by
  rw [smallestPow2m1GE_step 12 (by norm_num)]
  norm_num [smallestPow2m1GE_six]

/-- Value of the spec-side bound at 13. -/
theorem smallestPow2m1GE_thirteen : smallestPow2m1GE 13 = 15 := by
  rw [smallestPow2m1GE_step 13 (by norm_num)]
  norm_num [smallestPow2m1GE_six]

/-- Value of the spec-side bound at 14. -/
theorem smallestPow2m1GE_fourteen : smallestPow2m1GE 14 = 15 := by
  rw [smallestPow2m1GE_step 14 (by norm_num)]
  norm_num [smallestPow2m1GE_seven]

/-- Value of the spec-side bound at 15. -/
theorem smallestPow2m1GE_fifteen : smallestPow2m1GE 15 = 15 := by
  rw [smallestPow2m1GE_step 15 (by norm_num)]
  norm_num [smallestPow2m1GE_seven]

/-- Value of the spec-side bound at 17. -/
theorem smallestPow2m1GE_seventeen : smallestPow2m1GE 17 = 31 := by
  rw [smallestPow2m1GE_step 17 (by norm_num)]
  norm_num [smallestPow2m1GE_eight]

/-- C7 counterexample: the claim that the mask equals the smallest `2 ^ k - 1` that is
greater than or equal to the window fails at window 2, where the source computes 1 while
the smallest `2 ^ k - 1 ≥ 2` is 3; moreover at window 17 the incomplete two-shift smear
yields 30, which is not of the form `2 ^ k - 1` at all (the smallest such bound ≥ 17 is
31). -/
theorem c7_counterexample :
    randMaskOf 2 = 1 ∧ smallestPow2m1GE 2 = 3 ∧ randMaskOf 2 ≠ smallestPow2m1GE 2 ∧
    randMaskOf 17 = 30 ∧ smallestPow2m1GE 17 = 31 :=
  ⟨by decide, smallestPow2m1GE_two,
    by rw [smallestPow2m1GE_two]; decide, by decide, smallestPow2m1GE_seventeen⟩

/-- C7 amended: for every window in `[1, 16]` the mask computed by the source equals the
smallest number of the form `2 ^ k - 1` that is greater than or equal to `window - 1`,
with a zero result replaced by 1 (so window 1 yields mask 1); the smear starts from
`window - 1`, not from the window itself, and the source's two shifts only smear the top
four bits, so above window 16 the mask can fail to be of that form altogether. -/
theorem c7_randmask_amended (w : Nat) (h1 : 1 ≤ w) (h2 : w ≤ 16) :
    randMaskOf w = max 1 (smallestPow2m1GE (w - 1)) := by
  interval_cases w <;>
    simp only [Nat.reduceSub, smallestPow2m1GE_zero, smallestPow2m1GE_one,
      smallestPow2m1GE_two, smallestPow2m1GE_three, smallestPow2m1GE_four,
      smallestPow2m1GE_five, smallestPow2m1GE_six, smallestPow2m1GE_seven,
      smallestPow2m1GE_eight, smallestPow2m1GE_nine, smallestPow2m1GE_ten,
      smallestPow2m1GE_eleven, smallestPow2m1GE_twelve, smallestPow2m1GE_thirteen,
      smallestPow2m1GE_fourteen, smallestPow2m1GE_fifteen] <;>
    decide

/-- Witness for the amended C7 at window 5. -/
theorem c7_randmask_amended_witness :
    (1 : Nat) ≤ 5 ∧ (5 : Nat) ≤ 16 ∧ randMaskOf 5 = max 1 (smallestPow2m1GE (5 - 1)) :=
  ⟨by decide, by decide, c7_randmask_amended 5 (by decide) (by decide)⟩

/-- C6: tick firing.  One sweep of `vHandleIGMP_Event` maps every entry with a positive
countdown to its decrement and leaves zero-countdown entries untouched, and the emitted
frames are exactly one IGMPv2 membership report per entry whose countdown reaches 0 in
this sweep (that is, was exactly 1), each addressed to that entry's own group address. -/
theorem c6_tick_firing (lst : List IGMPReportDesc) :
    vHandleIGMP_Event lst =
      (lst.map fun e => if 0 < e.countDown then { e with countDown := e.countDown - 1 } else e,
       (lst.filter fun e => e.countDown == 1).map
         fun e => ⟨ipIGMP_MEMBERSHIP_REPORT_V2, 0, e.groupAddr, e.groupAddr⟩) := by
  induction lst with
  | nil => rfl
  | cons e rest ih =>
      simp only [vHandleIGMP_Event, List.map_cons, List.filter_cons, ih]
      by_cases h : 0 < e.countDown
      · by_cases h1 : e.countDown = 1
        · simp [h, h1]
        · have h2 : ¬(e.countDown - 1 = 0) := by omega
          have h3 : (e.countDown == 1) = false := by simp [h1]
          simp [h, h2, h3]
      · have h0 : e.countDown = 0 := by omega
        simp [h, h0]

/-- C8: short-frame safety.  A buffer whose data length is below
`sizeof(IGMPPacket_t)` is released immediately: the result and the state are
independent of every Ethernet, IP and IGMP header field (the packet component is
universally quantified), and the schedule list and both counters are unchanged. -/
theorem c8_short_frame_safety (len : Nat) (hlen : len < sizeofIGMPPacket)
    (pkt : IGMPPacket) (rnds : Nat → Option Nat) (st : IGMPProcState) :
    eProcessIGMPPacket ⟨len, pkt⟩ rnds st = (FrameProcessingResult.eReleaseBuffer, st) := by
  simp [eProcessIGMPPacket, hlen]

/-- Witness for C8 at a buffer one byte short of the minimum size (41 bytes), with
arbitrary concrete header contents. -/
theorem c8_short_frame_safety_witness :
    (41 : Nat) < sizeofIGMPPacket ∧
    eProcessIGMPPacket ⟨41, ⟨⟨1, 2, 3⟩, ⟨4, 5, 6, 7⟩, ⟨0x11, 8, 9, 0⟩⟩⟩ (fun _ => none)
        ⟨[⟨9, 1, 3, 0⟩], 5, 6⟩ =
      (FrameProcessingResult.eReleaseBuffer, ⟨[⟨9, 1, 3, 0⟩], 5, 6⟩) :=
  ⟨by decide,
    c8_short_frame_safety 41 (by decide) ⟨⟨1, 2, 3⟩, ⟨4, 5, 6, 7⟩, ⟨0x11, 8, 9, 0⟩⟩
      (fun _ => none) ⟨[⟨9, 1, 3, 0⟩], 5, 6⟩⟩

/-- C9: discard-only result.  For every input buffer, state and random-source behaviour,
`eProcessIGMPPacket` returns `eReleaseBuffer` and never any other
`eFrameProcessingResult_t` value. -/
theorem c9_discard_only (buf : NetworkBuffer) (rnds : Nat → Option Nat)
    (st : IGMPProcState) :
    (eProcessIGMPPacket buf rnds st).1 = FrameProcessingResult.eReleaseBuffer := by
  simp only [eProcessIGMPPacket]
  split
  · rfl
  · split
    · split <;> rfl
    · split <;> rfl

/-- Per-index characterization of the general-query reschedule loop: an entry whose
countdown is positive and strictly below the raw max-response-time is untouched; an
entry whose countdown is 0 or at least the max-response-time gets its countdown
overwritten with a freshly drawn `igmpChooseDelay` value (for some draw outcome and
fallback-counter value, namely the ones threaded to its position). -/
theorem reschedule_getElem (mrt : Nat) (rnds : Nat → Option Nat) :
    ∀ (lst : List IGMPReportDesc) (k c i : Nat) (e : IGMPReportDesc),
      lst[i]? = some e →
      ((0 < e.countDown → e.countDown < mrt →
          ((igmpGeneralQueryReschedule mrt rnds lst k c).1)[i]? = some e) ∧
       ((e.countDown ≤ 0 ∨ mrt ≤ e.countDown) →
          ∃ r c2, ((igmpGeneralQueryReschedule mrt rnds lst k c).1)[i]? =
            some { e with countDown := (igmpChooseDelay mrt r c2).1 })) := by
  intro lst
  induction lst with
  | nil => intro k c i e he; simp at he
  | cons a rest ih =>
      intro k c i e he
      by_cases hc : a.countDown ≤ 0 ∨ mrt ≤ a.countDown
      · simp only [igmpGeneralQueryReschedule, if_pos hc]
        cases i with
        | zero =>
            simp only [List.getElem?_cons_zero, Option.some.injEq] at he
            subst he
            constructor
            · intro h1 h2; omega
            · intro _
              exact ⟨rnds k, c, by simp⟩
        | succ i =>
            simp only [List.getElem?_cons_succ] at he ⊢
            exact ih _ _ i e he
      · simp only [igmpGeneralQueryReschedule, if_neg hc]
        cases i with
        | zero =>
            simp only [List.getElem?_cons_zero, Option.some.injEq] at he
            subst he
            constructor
            · intro _ _; simp
            · intro h; omega
        | succ i =>
            simp only [List.getElem?_cons_succ] at he ⊢
            exact ih _ _ i e he

/-- C5 counterexample: an entry whose countdown equals the query's max-response-time is
overwritten, not left untouched.  With max-response-time 7 and an entry at countdown 7
(which is greater than 0 and does not exceed 7), processing the general query rewrites
the countdown to 1 (the random source returns 0, the masked value 0 is bumped to 1),
so the entry is not preserved as the claim requires. -/
theorem c5_counterexample :
    ((eProcessIGMPPacket ⟨42, ⟨⟨0, 0, 0⟩, ⟨0, 0, 0, 0⟩, ⟨0x11, 7, 0, 0⟩⟩⟩
        (fun _ => some 0) ⟨[⟨9, 1, 7, 0⟩], 0, 0⟩).2.scheduleList = [⟨9, 1, 1, 0⟩]) ∧
    ([⟨9, 1, 1, 0⟩] : List IGMPReportDesc) ≠ [⟨9, 1, 7, 0⟩] := by
  constructor
  · have hred : reduceIntoWindow 6 1 = 1 := reduceIntoWindow_of_le 6 1 (by norm_num)
    simp [eProcessIGMPPacket, sizeofIGMPPacket, ipIGMP_MEMBERSHIP_QUERY,
      igmpGeneralQueryReschedule, igmpChooseDelay, randMaskOf, hred]
  · decide

/-- C5 amended: when a general query (group address 0) survives the length check, every
schedule-list entry whose countdown is 0 or greater than or equal to (not strictly
greater than) the query's raw max-response-time field has its countdown overwritten with
a freshly drawn delay, and every entry whose countdown is greater than 0 and strictly
below the max-response-time is left untouched; in particular an entry with countdown 3
under a query with max-response-time 11 (effective window 10) keeps countdown 3. -/
theorem c5_general_query_reschedule_amended (eth : EthernetHeader) (ip : IPHeader)
    (csum len mrt : Nat) (rnds : Nat → Option Nat) (st : IGMPProcState)
    (hlen : sizeofIGMPPacket ≤ len) (i : Nat) (e : IGMPReportDesc)
    (he : st.scheduleList[i]? = some e) :
    (0 < e.countDown → e.countDown < mrt →
      ((eProcessIGMPPacket ⟨len, ⟨eth, ip, ⟨ipIGMP_MEMBERSHIP_QUERY, mrt, csum, 0⟩⟩⟩
          rnds st).2.scheduleList)[i]? = some e) ∧
    ((e.countDown = 0 ∨ mrt ≤ e.countDown) →
      ∃ r c, ((eProcessIGMPPacket ⟨len, ⟨eth, ip, ⟨ipIGMP_MEMBERSHIP_QUERY, mrt, csum, 0⟩⟩⟩
          rnds st).2.scheduleList)[i]? =
        some { e with countDown := (igmpChooseDelay mrt r c).1 }) := by
  have hnot : ¬ (len < sizeofIGMPPacket) := by omega
  have hproc :
      (eProcessIGMPPacket ⟨len, ⟨eth, ip, ⟨ipIGMP_MEMBERSHIP_QUERY, mrt, csum, 0⟩⟩⟩
        rnds st).2.scheduleList =
      (igmpGeneralQueryReschedule mrt rnds st.scheduleList 0 1).1 := by
    simp [eProcessIGMPPacket, hnot]
  rw [hproc]
  have h := reschedule_getElem mrt rnds st.scheduleList 0 1 i e he
  exact ⟨fun h1 h2 => h.1 h1 h2, fun h1 => h.2 (by omega)⟩

/-- Witness for the amended C5 at a concrete buffer (max-response-time 11) and a
one-entry schedule list with countdown 3, at index 0. -/
theorem c5_general_query_reschedule_amended_witness :
    sizeofIGMPPacket ≤ 42 ∧
    ([⟨9, 1, 3, 0⟩] : List IGMPReportDesc)[0]? = some ⟨9, 1, 3, 0⟩ ∧
    ((0 < (3 : Nat) → (3 : Nat) < 11 →
      ((eProcessIGMPPacket ⟨42, ⟨⟨0, 0, 0⟩, ⟨0, 0, 0, 0⟩, ⟨ipIGMP_MEMBERSHIP_QUERY, 11, 0, 0⟩⟩⟩
          (fun _ => some 0) ⟨[⟨9, 1, 3, 0⟩], 0, 0⟩).2.scheduleList)[0]? =
        some ⟨9, 1, 3, 0⟩) ∧
    (((3 : Nat) = 0 ∨ (11 : Nat) ≤ 3) →
      ∃ r c, ((eProcessIGMPPacket ⟨42, ⟨⟨0, 0, 0⟩, ⟨0, 0, 0, 0⟩,
            ⟨ipIGMP_MEMBERSHIP_QUERY, 11, 0, 0⟩⟩⟩
          (fun _ => some 0) ⟨[⟨9, 1, 3, 0⟩], 0, 0⟩).2.scheduleList)[0]? =
        some { (⟨9, 1, 3, 0⟩ : IGMPReportDesc) with countDown := (igmpChooseDelay 11 r c).1 })) :=
  ⟨by decide, by decide,
    c5_general_query_reschedule_amended ⟨0, 0, 0⟩ ⟨0, 0, 0, 0⟩ 0 42 11 (fun _ => some 0)
      ⟨[⟨9, 1, 3, 0⟩], 0, 0⟩ (by decide) 0 ⟨9, 1, 3, 0⟩ (by decide)⟩

/-! Lemmas about `xAddIGMPReportToList` and `vRemoveIGMPReportFromList`. -/

/-- When no entry matches the candidate's group, the candidate is appended at the end
with socket count 1 and the unsolicited countdown, and the call consumes it. -/
theorem xAdd_not_found (cand : IGMPReportDesc) (rnd : Option Nat) :
    ∀ lst : List IGMPReportDesc, (∀ x ∈ lst, x.groupAddr ≠ cand.groupAddr) →
      xAddIGMPReportToList lst cand rnd =
        (lst ++ [{ cand with numSockets := 1, countDown := 2 + (xAddSeed cand rnd &&& 0x07) }],
         true) := by
  intro lst
  induction lst with
  | nil => intro _; rfl
  | cons e rest ih =>
      intro h
      have he : e.groupAddr ≠ cand.groupAddr := h e (List.mem_cons_self e rest)
      simp only [xAddIGMPReportToList, if_neg he]
      rw [ih fun x hx => h x (List.mem_cons_of_mem e hx)]
      simp

/-- When the first match sits at a known position, the call bumps exactly that entry's
socket count and does not consume the candidate. -/
theorem xAdd_found (cand : IGMPReportDesc) (rnd : Option Nat) :
    ∀ (pre : List IGMPReportDesc) (e : IGMPReportDesc) (post : List IGMPReportDesc),
      (∀ x ∈ pre, x.groupAddr ≠ cand.groupAddr) → e.groupAddr = cand.groupAddr →
      xAddIGMPReportToList (pre ++ e :: post) cand rnd =
        (pre ++ { e with numSockets := e.numSockets + 1 } :: post, false) := by
  intro pre
  induction pre with
  | nil =>
      intro e post _ he
      simp only [List.nil_append, xAddIGMPReportToList, if_pos he]
  | cons a pre ih =>
      intro e post h he
      have ha : a.groupAddr ≠ cand.groupAddr := h a (List.mem_cons_self a pre)
      simp only [List.cons_append, xAddIGMPReportToList, if_neg ha, List.append_eq]
      rw [ih e post (fun x hx => h x (List.mem_cons_of_mem a hx)) he]

/-- A list containing a match for `g` decomposes at its first match. -/
theorem exists_first_group (g : Nat) :
    ∀ lst : List IGMPReportDesc, (∃ e ∈ lst, e.groupAddr = g) →
      ∃ pre e post, lst = pre ++ e :: post ∧ (∀ x ∈ pre, x.groupAddr ≠ g) ∧
        e.groupAddr = g := by
  intro lst
  induction lst with
  | nil => rintro ⟨e, he, _⟩; cases he
  | cons a rest ih =>
      intro h
      by_cases ha : a.groupAddr = g
      · exact ⟨[], a, rest, rfl, by simp, ha⟩
      · obtain ⟨e, he, hg⟩ := h
        rcases List.mem_cons.mp he with rfl | he2
        · exact absurd hg ha
        · obtain ⟨pre, e2, post, h1, h2, h3⟩ := ih ⟨e, he2, hg⟩
          refine ⟨a :: pre, e2, post, by simp [h1], ?_, h3⟩
          intro x hx
          rcases List.mem_cons.mp hx with rfl | hx2
          · exact ha
          · exact h2 x hx2

/-- Any group address present after an insertion was present before, or is the
candidate's. -/
theorem xAdd_mem_groupAddr (cand : IGMPReportDesc) (rnd : Option Nat) :
    ∀ (lst : List IGMPReportDesc) (a : Nat),
      a ∈ (xAddIGMPReportToList lst cand rnd).1.map (·.groupAddr) →
      a ∈ lst.map (·.groupAddr) ∨ a = cand.groupAddr := by
  intro lst
  induction lst with
  | nil =>
      intro a ha
      simp only [xAddIGMPReportToList, List.map_cons, List.map_nil] at ha
      simp at ha
      exact Or.inr ha
  | cons e rest ih =>
      intro a ha
      by_cases he : e.groupAddr = cand.groupAddr
      · simp only [xAddIGMPReportToList, if_pos he, List.map_cons] at ha
        rcases List.mem_cons.mp ha with h1 | h1
        · exact Or.inl (by simp [h1])
        · exact Or.inl (by simp; exact Or.inr (by simpa using h1))
      · simp only [xAddIGMPReportToList, if_neg he, List.map_cons] at ha
        rcases List.mem_cons.mp ha with h1 | h1
        · exact Or.inl (by simp [h1])
        · rcases ih a (by simpa using h1) with h2 | h2
          · exact Or.inl (by simp; exact Or.inr (by simpa using h2))
          · exact Or.inr h2

/-- A consumed insertion means no entry with the candidate's group was present. -/
theorem xAdd_consumed_not_mem (cand : IGMPReportDesc) (rnd : Option Nat) :
    ∀ lst : List IGMPReportDesc, (xAddIGMPReportToList lst cand rnd).2 = true →
      cand.groupAddr ∉ lst.map (·.groupAddr) := by
  intro lst
  induction lst with
  | nil => intro _; simp
  | cons e rest ih =>
      intro h
      by_cases he : e.groupAddr = cand.groupAddr
      · simp only [xAddIGMPReportToList, if_pos he] at h
        cases h
      · simp only [xAddIGMPReportToList, if_neg he] at h
        simp only [List.map_cons, List.mem_cons]
        push_neg
        exact ⟨fun hc => he hc.symm, ih h⟩

/-- Insertion preserves distinctness of group addresses. -/
theorem xAdd_nodup (cand : IGMPReportDesc) (rnd : Option Nat) :
    ∀ lst : List IGMPReportDesc, (lst.map (·.groupAddr)).Nodup →
      ((xAddIGMPReportToList lst cand rnd).1.map (·.groupAddr)).Nodup := by
  intro lst
  induction lst with
  | nil => intro _; simp [xAddIGMPReportToList]
  | cons e rest ih =>
      intro h
      simp only [List.map_cons, List.nodup_cons] at h
      by_cases he : e.groupAddr = cand.groupAddr
      · simp only [xAddIGMPReportToList, if_pos he, List.map_cons, List.nodup_cons]
        exact ⟨h.1, h.2⟩
      · simp only [xAddIGMPReportToList, if_neg he, List.map_cons, List.nodup_cons]
        refine ⟨fun hc => ?_, ih h.2⟩
        rcases xAdd_mem_groupAddr cand rnd rest e.groupAddr hc with h2 | h2
        · exact h.1 h2
        · exact he h2

/-- Removal only drops or edits entries in place: the group-address image is a sublist
of the original one. -/
theorem vRemove_map_sublist (g : Nat) :
    ∀ lst : List IGMPReportDesc,
      ((vRemoveIGMPReportFromList lst g).map (·.groupAddr)).Sublist
        (lst.map (·.groupAddr)) := by
  intro lst
  induction lst with
  | nil => simp [vRemoveIGMPReportFromList]
  | cons e rest ih =>
      by_cases he : e.groupAddr = g
      · simp only [vRemoveIGMPReportFromList, if_pos he]
        by_cases h1 : 0 < e.numSockets
        · simp only [if_pos h1]
          by_cases h2 : e.numSockets - 1 = 0
          · rw [if_pos h2]
            exact List.sublist_cons_self _ _
          · rw [if_neg h2]
            simp only [List.map_cons]
            exact List.Sublist.cons₂ _ (List.Sublist.refl _)
        · simp only [if_neg h1]
          by_cases h2 : e.numSockets = 0
          · rw [if_pos h2]
            exact List.sublist_cons_self _ _
          · rw [if_neg h2]
      · simp only [vRemoveIGMPReportFromList, if_neg he, List.map_cons]
        exact List.Sublist.cons₂ _ ih

/-- Removal preserves distinctness of group addresses. -/
theorem vRemove_nodup (g : Nat) (lst : List IGMPReportDesc)
    (h : (lst.map (·.groupAddr)).Nodup) :
    ((vRemoveIGMPReportFromList lst g).map (·.groupAddr)).Nodup :=
  h.sublist (vRemove_map_sublist g lst)

/-- Distinctness of group addresses is preserved by every operation sequence. -/
theorem applyRegistryOps_nodup :
    ∀ (ops : List RegistryOp) (lst : List IGMPReportDesc),
      (lst.map (·.groupAddr)).Nodup →
      ((applyRegistryOps ops lst).map (·.groupAddr)).Nodup := by
  intro ops
  induction ops with
  | nil => intro lst h; exact h
  | cons op ops ih =>
      intro lst h
      cases op with
      | join c r => exact ih _ (xAdd_nodup c r lst h)
      | leave g => exact ih _ (vRemove_nodup g lst h)

/-- C1: registry uniqueness invariant.  Starting from the freshly initialized (empty)
schedule list — `vIGMP_Init` calls `vListInitialise`, and its optional LLMNR
pre-registration is itself an `xAddIGMPReportToList` call, so it is one of the covered
operations — every sequence of join (`xAddIGMPReportToList`) and leave
(`vRemoveIGMPReportFromList`) operations yields a list in which no two entries share a
multicast group address. -/
theorem c1_registry_uniqueness (ops : List RegistryOp) :
    ((applyRegistryOps ops []).map (·.groupAddr)).Nodup :=
  applyRegistryOps_nodup ops [] (by simp)

/-- C3: ownership contract of `xAddIGMPReportToList`.  For a candidate whose heap
identity is fresh (a newly allocated descriptor cannot alias a list member): if an entry
with the candidate's group address exists, the first such entry's socket count is
incremented, the candidate's identity never enters the registry, and the call returns
`pdFALSE` (not consumed); if no such entry exists, the candidate is appended with socket
count 1 and a countdown in the default unsolicited window `[2, 9]`, and the call returns
`pdTRUE` (consumed). -/
theorem c3_insert_or_bump_ownership (lst : List IGMPReportDesc) (cand : IGMPReportDesc)
    (rnd : Option Nat) (hfresh : cand.id ∉ lst.map (·.id)) :
    ((∃ e ∈ lst, e.groupAddr = cand.groupAddr) →
      (xAddIGMPReportToList lst cand rnd).2 = false ∧
      cand.id ∉ (xAddIGMPReportToList lst cand rnd).1.map (·.id) ∧
      ∃ pre e post,
        lst = pre ++ e :: post ∧
        (∀ x ∈ pre, x.groupAddr ≠ cand.groupAddr) ∧
        e.groupAddr = cand.groupAddr ∧
        (xAddIGMPReportToList lst cand rnd).1 =
          pre ++ { e with numSockets := e.numSockets + 1 } :: post) ∧
    ((∀ e ∈ lst, e.groupAddr ≠ cand.groupAddr) →
      (xAddIGMPReportToList lst cand rnd).2 = true ∧
      ∃ cd, 2 ≤ cd ∧ cd ≤ 9 ∧
        (xAddIGMPReportToList lst cand rnd).1 =
          lst ++ [{ cand with numSockets := 1, countDown := cd }]) := by
  constructor
  · intro hex
    obtain ⟨pre, e, post, hdec, hpre, hg⟩ := exists_first_group cand.groupAddr lst hex
    subst hdec
    have hadd := xAdd_found cand rnd pre e post hpre hg
    rw [hadd]
    refine ⟨rfl, ?_, pre, e, post, rfl, hpre, hg, rfl⟩
    intro hmem
    apply hfresh
    simp only [List.map_append, List.map_cons, List.mem_append, List.mem_cons] at hmem ⊢
    exact hmem
  · intro hnone
    rw [xAdd_not_found cand rnd lst hnone]
    refine ⟨rfl, 2 + (xAddSeed cand rnd &&& 0x07), by omega, ?_, rfl⟩
    have h7 : xAddSeed cand rnd &&& 0x07 ≤ 0x07 := Nat.and_le_right
    omega

/-- Witness for C3 at the concrete registry `[⟨5, 1, 3, 10⟩]` and candidate
`⟨5, 0, 0, 11⟩` (same group 5, fresh identity 11) with a successful draw of 3. -/
theorem c3_insert_or_bump_ownership_witness :
    ((⟨5, 0, 0, 11⟩ : IGMPReportDesc).id ∉
      ([⟨5, 1, 3, 10⟩] : List IGMPReportDesc).map (·.id)) ∧
    (((∃ e ∈ ([⟨5, 1, 3, 10⟩] : List IGMPReportDesc),
        e.groupAddr = (⟨5, 0, 0, 11⟩ : IGMPReportDesc).groupAddr) →
      (xAddIGMPReportToList [⟨5, 1, 3, 10⟩] ⟨5, 0, 0, 11⟩ (some 3)).2 = false ∧
      (⟨5, 0, 0, 11⟩ : IGMPReportDesc).id ∉
        (xAddIGMPReportToList [⟨5, 1, 3, 10⟩] ⟨5, 0, 0, 11⟩ (some 3)).1.map (·.id) ∧
      ∃ pre e post,
        ([⟨5, 1, 3, 10⟩] : List IGMPReportDesc) = pre ++ e :: post ∧
        (∀ x ∈ pre, x.groupAddr ≠ (⟨5, 0, 0, 11⟩ : IGMPReportDesc).groupAddr) ∧
        e.groupAddr = (⟨5, 0, 0, 11⟩ : IGMPReportDesc).groupAddr ∧
        (xAddIGMPReportToList [⟨5, 1, 3, 10⟩] ⟨5, 0, 0, 11⟩ (some 3)).1 =
          pre ++ { e with numSockets := e.numSockets + 1 } :: post) ∧
    ((∀ e ∈ ([⟨5, 1, 3, 10⟩] : List IGMPReportDesc),
        e.groupAddr ≠ (⟨5, 0, 0, 11⟩ : IGMPReportDesc).groupAddr) →
      (xAddIGMPReportToList [⟨5, 1, 3, 10⟩] ⟨5, 0, 0, 11⟩ (some 3)).2 = true ∧
      ∃ cd, 2 ≤ cd ∧ cd ≤ 9 ∧
        (xAddIGMPReportToList [⟨5, 1, 3, 10⟩] ⟨5, 0, 0, 11⟩ (some 3)).1 =
          [⟨5, 1, 3, 10⟩] ++ [{ (⟨5, 0, 0, 11⟩ : IGMPReportDesc) with
            numSockets := 1, countDown := cd }])) :=
  ⟨by decide, c3_insert_or_bump_ownership [⟨5, 1, 3, 10⟩] ⟨5, 0, 0, 11⟩ (some 3) (by decide)⟩

/-! Lemmas about the N-sockets-one-group scenario of `vModifyMulticastMembership`. -/

/-- After `n + 1` joins the registry holds a single entry for the group with socket
count `n + 1`, countdown 2 (the draw 0 gives `2 + (0 & 7)`), owned by the first
candidate (identity 100). -/
theorem c2_joins_reg (g : Nat) : ∀ n, c2RegAfterJoins g (n + 1) = [⟨g, n + 1, 2, 100⟩] := by
  intro n
  induction n with
  | zero =>
      simp [c2RegAfterJoins, c2JoinResult, vModifyMulticastMembership, findMCG,
        xAddIGMPReportToList, xAddSeed, c2JoinReq, c2Candidate,
        eSocketOptAddMembership, eSocketOptDropMembership]
  | succ n ih =>
      show (c2JoinResult g (n + 1) (c2RegAfterJoins g (n + 1))).registry = _
      rw [ih]
      simp [c2JoinResult, vModifyMulticastMembership, findMCG,
        xAddIGMPReportToList, xAddSeed, c2JoinReq, c2Candidate,
        eSocketOptAddMembership, eSocketOptDropMembership]

/-- Each socket's group list after its join holds exactly its stored descriptor for the
group (the report reference differs between the first and later joins, but the group
address and identity are fixed). -/
theorem c2_sockList (g : Nat) : ∀ i, ∃ rep, c2SockList g i = [⟨g, i, rep, 200 + i⟩] := by
  intro i
  cases i with
  | zero =>
      refine ⟨some (c2Candidate g 0), ?_⟩
      simp [c2SockList, c2RegAfterJoins, c2JoinResult, vModifyMulticastMembership, findMCG,
        xAddIGMPReportToList, xAddSeed, c2JoinReq, c2Candidate,
        eSocketOptAddMembership, eSocketOptDropMembership]
  | succ i =>
      refine ⟨none, ?_⟩
      simp only [c2SockList, c2_joins_reg g i]
      simp [c2JoinResult, vModifyMulticastMembership, findMCG,
        xAddIGMPReportToList, xAddSeed, c2JoinReq, c2Candidate,
        eSocketOptAddMembership, eSocketOptDropMembership]

/-- Effect of one leave on a singleton registry entry for the group: the socket count is
decremented, and the entry is removed exactly when the count reaches 0. -/
theorem c2_leave_registry (g i s cd id0 : Nat) :
    (c2LeaveResult g i [⟨g, s + 1, cd, id0⟩]).registry =
      if s = 0 then [] else [⟨g, s, cd, id0⟩] := by
  obtain ⟨rep, hsl⟩ := c2_sockList g i
  simp only [c2LeaveResult, hsl]
  by_cases hs : s = 0 <;>
    simp [vModifyMulticastMembership, findMCG, vRemoveIGMPReportFromList, c2LeaveReq,
      eSocketOptAddMembership, eSocketOptDropMembership, hs]

/-- Every leave whose group is present in the socket's list performs exactly one
`xEMAC_RemoveMulticastAddress` call for that group — regardless of the registry's socket
count. -/
theorem c2_leave_filter (g i : Nat) (reg : List IGMPReportDesc) :
    (c2LeaveResult g i reg).filterCalls = [FilterOp.removeMac g] := by
  obtain ⟨rep, hsl⟩ := c2_sockList g i
  simp only [c2LeaveResult, hsl]
  simp [vModifyMulticastMembership, findMCG, c2LeaveReq,
    eSocketOptAddMembership, eSocketOptDropMembership]

/-- After `j ≤ N - 1` leaves the registry still holds one entry with socket count
`N - j`. -/
theorem c2_leaves_reg (g N : Nat) (hN : 1 ≤ N) :
    ∀ j, j ≤ N - 1 → c2RegAfterLeaves g N j = [⟨g, N - j, 2, 100⟩] := by
  intro j
  induction j with
  | zero =>
      intro _
      show c2RegAfterJoins g N = _
      obtain ⟨n, rfl⟩ : ∃ n, N = n + 1 := ⟨N - 1, by omega⟩
      simpa using c2_joins_reg g n
  | succ j ih =>
      intro hj
      show (c2LeaveResult g j (c2RegAfterLeaves g N j)).registry = _
      rw [ih (by omega)]
      obtain ⟨m, hm⟩ : ∃ m, N - j = m + 1 := ⟨N - j - 1, by omega⟩
      rw [hm, c2_leave_registry]
      have hm1 : ¬ m = 0 := by omega
      rw [if_neg hm1]
      have hmm : m = N - (j + 1) := by omega
      rw [hmm]

/-- C2 counterexample: with `N = 2` sockets joined to group 5, the first of the
`N - 1 = 1` leaves already performs a `remove_multicast_mac` call (its filter-call log
is `[removeMac 5]`, not empty), while the registry correctly still holds one entry with
socket count 1 — refuting the claim that the link-layer filter is untouched during the
first `N - 1` leaves. -/
theorem c2_counterexample :
    (c2LeaveResult 5 0 (c2RegAfterLeaves 5 2 0)).filterCalls = [FilterOp.removeMac 5] ∧
    (c2LeaveResult 5 0 (c2RegAfterLeaves 5 2 0)).registry = [⟨5, 1, 2, 100⟩] := by
  constructor
  · exact c2_leave_filter 5 0 _
  · show (c2LeaveResult 5 0 (c2RegAfterJoins 5 2)).registry = _
    rw [c2_joins_reg 5 1]
    simpa using c2_leave_registry 5 0 1 2 100

/-- C2 amended: if `N ≥ 1` distinct sockets each join the same multicast group and then
`N - 1` of them leave it, exactly one registry entry remains with socket count 1;
however every one of the `N` leaves (not only the last) triggers exactly one
`remove_multicast_mac` call for the group's MAC address, and the `N`-th (last) leave
additionally removes the registry entry. -/
theorem c2_refcount_amended (g N : Nat) (hN : 1 ≤ N) :
    c2RegAfterLeaves g N (N - 1) = [⟨g, 1, 2, 100⟩] ∧
    (∀ j, j < N → (c2LeaveResult g j (c2RegAfterLeaves g N j)).filterCalls =
        [FilterOp.removeMac g]) ∧
    (c2LeaveResult g (N - 1) (c2RegAfterLeaves g N (N - 1))).registry = [] := by
  have h1 : c2RegAfterLeaves g N (N - 1) = [⟨g, 1, 2, 100⟩] := by
    have := c2_leaves_reg g N hN (N - 1) (le_refl _)
    rwa [show N - (N - 1) = 1 by omega] at this
  refine ⟨h1, fun j _ => c2_leave_filter g j _, ?_⟩
  rw [h1]
  have := c2_leave_registry g (N - 1) 0 2 100
  simpa using this

/-- Witness for the amended C2 at group 7 with `N = 2` sockets. -/
theorem c2_refcount_amended_witness :
    (1 : Nat) ≤ 2 ∧
    (c2RegAfterLeaves 7 2 (2 - 1) = [⟨7, 1, 2, 100⟩] ∧
    (∀ j, j < 2 → (c2LeaveResult 7 j (c2RegAfterLeaves 7 2 j)).filterCalls =
        [FilterOp.removeMac 7]) ∧
    (c2LeaveResult 7 (2 - 1) (c2RegAfterLeaves 7 2 (2 - 1))).registry = []) :=
  ⟨by decide, c2_refcount_amended 7 2 (by decide)⟩

/-- C10: invalid-action no-op.  An action value that is neither add- nor
drop-membership returns immediately: the socket's group list, the registry, the filter
log and the freed log are all unchanged (in particular the input descriptor is not
freed), whereas every valid action value either frees the input descriptor or stores it
in the socket's group list. -/
theorem c10_invalid_action_noop (sockList : List MCastGroupDesc)
    (registry : List IGMPReportDesc) (desc : MCastGroupDesc) (a a2 : Nat)
    (rnd rnd2 : Option Nat)
    (h1 : a ≠ eSocketOptAddMembership) (h2 : a ≠ eSocketOptDropMembership)
    (h3 : a2 = eSocketOptAddMembership ∨ a2 = eSocketOptDropMembership) :
    vModifyMulticastMembership sockList registry desc a rnd =
      ⟨sockList, registry, [], []⟩ ∧
    (desc.id ∈ (vModifyMulticastMembership sockList registry desc a2 rnd2).freed ∨
     ∃ d ∈ (vModifyMulticastMembership sockList registry desc a2 rnd2).sockList,
       d.id = desc.id) := by
  constructor
  · simp [vModifyMulticastMembership, h1, h2]
  · rcases h3 with rfl | rfl
    · cases hf : findMCG sockList desc.groupAddr with
      | none =>
          cases hr : desc.report with
          | none =>
              refine Or.inr ⟨desc, ?_, rfl⟩
              simp [vModifyMulticastMembership, hf, hr]
          | some r =>
              by_cases hc : (xAddIGMPReportToList registry r rnd2).2 = true
              · refine Or.inr ⟨desc, ?_, rfl⟩
                simp [vModifyMulticastMembership, hf, hr, hc]
              · refine Or.inr ⟨{ desc with report := none }, ?_, rfl⟩
                simp [vModifyMulticastMembership, hf, hr, hc]
      | some mcg =>
          refine Or.inl ?_
          simp [vModifyMulticastMembership, hf]
    · cases hf : findMCG sockList desc.groupAddr with
      | none =>
          refine Or.inl ?_
          simp [vModifyMulticastMembership, hf, eSocketOptAddMembership,
            eSocketOptDropMembership]
      | some mcg =>
          refine Or.inl ?_
          by_cases hid : mcg.id = desc.id
          · simp [vModifyMulticastMembership, hf, hid, eSocketOptAddMembership,
              eSocketOptDropMembership]
          · simp [vModifyMulticastMembership, hf, hid, eSocketOptAddMembership,
              eSocketOptDropMembership]

/-- Witness for C10 at action value 0 (invalid) and drop-membership as the contrasting
valid action, on a one-descriptor socket list. -/
theorem c10_invalid_action_noop_witness :
    (0 : Nat) ≠ eSocketOptAddMembership ∧ (0 : Nat) ≠ eSocketOptDropMembership ∧
    (eSocketOptDropMembership = eSocketOptAddMembership ∨
      eSocketOptDropMembership = eSocketOptDropMembership) ∧
    (vModifyMulticastMembership [⟨7, 0, none, 50⟩] [⟨7, 1, 2, 60⟩] ⟨7, 0, none, 42⟩ 0 none =
      ⟨[⟨7, 0, none, 50⟩], [⟨7, 1, 2, 60⟩], [], []⟩ ∧
    ((⟨7, 0, none, 42⟩ : MCastGroupDesc).id ∈
      (vModifyMulticastMembership [⟨7, 0, none, 50⟩] [⟨7, 1, 2, 60⟩] ⟨7, 0, none, 42⟩
        eSocketOptDropMembership none).freed ∨
     ∃ d ∈ (vModifyMulticastMembership [⟨7, 0, none, 50⟩] [⟨7, 1, 2, 60⟩] ⟨7, 0, none, 42⟩
        eSocketOptDropMembership none).sockList,
       d.id = (⟨7, 0, none, 42⟩ : MCastGroupDesc).id)) :=
  ⟨by decide, by decide, Or.inr rfl,
    c10_invalid_action_noop [⟨7, 0, none, 50⟩] [⟨7, 1, 2, 60⟩] ⟨7, 0, none, 42⟩ 0
      eSocketOptDropMembership none none (by decide) (by decide) (Or.inr rfl)⟩
